import Mathlib

/-!
Verification development for the catalog consistency manager of the
admin-portal product service (`ProductService` in `lib/product-service.ts`).

The service is embedded shallowly: the MongoDB collections become lists of
records inside an explicit `DBState`, each service method becomes a pure
state-passing function, and the MongoDB / JavaScript primitives the service
relies on (`$toInt`, `$substr`, `Number.prototype.toString`,
`String.prototype.padStart`, the `^prod_` regex, `$push`, `$pull`, `$inc`,
`updateOne` / `deleteOne` first-match semantics) are modelled by explicit
executable functions over `List Char` / lists of records.
-/

/-! ## Decimal characters and parsing (models of the JS / MongoDB primitives) -/

/-- Decimal digit test for a character, the `[0-9]` class (ASCII 48..57). -/
def isDigitChar (c : Char) : Bool := 48 ≤ c.toNat && c.toNat ≤ 57

/-- Left-to-right decimal accumulation; fails on the first non-digit.
Model of the digit-string part of MongoDB `$toInt`. -/
def parseDigits : List Char → Nat → Option Nat
  | [], acc => some acc
  | c :: cs, acc =>
    if isDigitChar c then parseDigits cs (acc * 10 + (c.toNat - 48)) else none

/-- The character of a single decimal digit. -/
def digitChar (d : Nat) : Char := Char.ofNat (48 + d)

/-- Fuel-driven decimal rendering, most significant digit first.
Model of JavaScript `Number.prototype.toString` (base 10) on naturals. -/
def natToDigitsAux : Nat → Nat → List Char → List Char
  | 0, _, ds => ds
  | fuel + 1, n, ds =>
    let ds' := digitChar (n % 10) :: ds
    if n / 10 = 0 then ds' else natToDigitsAux fuel (n / 10) ds'

/-- Decimal representation of a natural number (`(0).toString() = "0"`). -/
def natRepr (n : Nat) : List Char := natToDigitsAux (n + 1) n []

/-- Decimal representation of an integer, the model of JS `toString` on the
`nextNum` value computed by `getNextProductId`. -/
def intRepr (i : Int) : List Char :=
  if i < 0 then '-' :: natRepr i.natAbs else natRepr i.toNat

/-- Model of JS `String.prototype.padStart (n, c)`: prepend copies of `c`
until the target length is reached; a string already at least that long is
returned unchanged (never truncated). -/
def padStart (l : List Char) (n : Nat) (c : Char) : List Char :=
  List.replicate (n - l.length) c ++ l

/-- Model of MongoDB `$toInt` on a string: an optional leading minus sign
followed by a non-empty run of decimal digits; anything else errors. -/
def toIntM : List Char → Option Int
  | [] => none
  | c :: rest =>
    if c = '-' then
      if rest = [] then none else (parseDigits rest 0).map (fun v => -(v : Int))
    else
      (parseDigits (c :: rest) 0).map (fun v => (v : Int))

/-! ## Data model

Fields are the ones the service reads and writes (`types/product.ts` is
consumed through them); timestamps are modelled as naturals drawn from a
logical clock `now` carried in the state, `product_count` is an `Int`
because `$inc: -1` can drive it negative. -/

/-- A document of the `products` collection.  `_id` is the Mongo document
key; `createProduct` sets `product_id` to the same string. -/
structure Product where
  _id : String
  product_id : String
  product_name : String
  product_title : String
  product_description : String
  image_urls : List String
  image_count : Nat
  subcategory_id : String
  category_id : String
  status : String
  created_at : Nat
  updated_at : Nat
deriving DecidableEq

/-- A document of the `categories` collection. -/
structure Category where
  _id : String
  name : String
  product_ids : List String
  product_count : Int
  updated_at : Nat
deriving DecidableEq

/-- A document of the `subcategories` collection. -/
structure Subcategory where
  _id : String
  name : String
  category_id : String
  product_ids : List String
  product_count : Int
  updated_at : Nat
deriving DecidableEq

/-- The three collections the service touches, plus the logical clock
supplying `new Date()` values. -/
structure DBState where
  products : List Product
  categories : List Category
  subcategories : List Subcategory
  now : Nat
deriving DecidableEq

/-- The `product_data` argument of `createProduct` (`ProductFormData`
minus the raw image files, which the service never reads). -/
structure ProductFormData where
  product_name : String
  product_title : String
  product_description : String
  category_id : String
  subcategory_id : String
deriving DecidableEq

/-- The `updateData : Partial<Product>` argument of `updateProduct`: every
field optional.  `_id` is not included because `$set` on `_id` is rejected
by the store; `updated_at` is omitted because the spread
`{ ...updateData, updated_at: new Date() }` unconditionally overwrites it. -/
structure PartialProduct where
  product_id : Option String := none
  product_name : Option String := none
  product_title : Option String := none
  product_description : Option String := none
  image_urls : Option (List String) := none
  image_count : Option Nat := none
  subcategory_id : Option String := none
  category_id : Option String := none
  status : Option String := none
  created_at : Option Nat := none
deriving DecidableEq

/-! ## Generic collection primitives (`updateOne`, `deleteOne`) -/

/-- Model of Mongo `updateOne`: apply `f` to the first document matched by
`pred`, leave everything else alone; no match means no change. -/
def updateFirst {α : Type} : List α → (α → Bool) → (α → α) → List α
  | [], _, _ => []
  | x :: xs, pred, f => if pred x then f x :: xs else x :: updateFirst xs pred f

/-- Model of Mongo `deleteOne`: drop the first document matched by `pred`. -/
def deleteFirst {α : Type} : List α → (α → Bool) → List α
  | [], _ => []
  | x :: xs, pred => if pred x then xs else x :: deleteFirst xs pred

/-! ## The service operations -/

/-- The `$match: { _id: { $regex: "^prod_" } }` stage of the
`getNextProductId` pipeline. -/
def matchesProdRegex (id : String) : Bool := "prod_".data.isPrefixOf id.data

/-- The `$project` stage: `$toInt` of `$substr ["$_id", 5, -1]`, i.e. the
numeric value of everything after the five-character `prod_` prefix. -/
def numericPart (id : String) : Option Int := toIntM (id.data.drop 5)

/-- Compute the `numeric_part` of every matched document; the aggregation
errors as a whole when `$toInt` fails on any of them. -/
def projectNums : List Product → Option (List Int)
  | [] => some []
  | p :: ps =>
    match numericPart p._id, projectNums ps with
    | some v, some vs => some (v :: vs)
    | _, _ => none

/-- The `$sort: { numeric_part: -1 }, $limit: 1` tail of the pipeline:
the greatest value, when any exists. -/
def maxInt : List Int → Option Int
  | [] => none
  | x :: xs => some (xs.foldl max x)

/-- The `nextNum` variable: `1` when the pipeline returned nothing,
otherwise the top `numeric_part` plus one. -/
def nextNumOf (nums : List Int) : Int :=
  match maxInt nums with
  | none => 1
  | some m => m + 1

/-- The template `prod_${nextNum.toString().padStart(4, '0')}`. -/
def formatProductId (n : Int) : String :=
  ⟨"prod_".data ++ padStart (intRepr n) 4 '0'⟩

/-- `ProductService.getNextProductId`: scan the current `products`
collection and format the successor of the highest existing suffix. -/
def getNextProductId (s : DBState) : Option String :=
  match projectNums (s.products.filter (fun p => matchesProdRegex p._id)) with
  | none => none
  | some nums => some (formatProductId (nextNumOf nums))

/-- The product document built by `ProductService.createProduct`. -/
def mkProduct (pid : String) (d : ProductFormData) (urls : List String)
    (now : Nat) : Product :=
  { _id := pid
    product_id := pid
    product_name := d.product_name
    product_title := d.product_title
    product_description := d.product_description
    image_urls := urls
    image_count := urls.length
    subcategory_id := d.subcategory_id
    category_id := d.category_id
    status := "active"
    created_at := now
    updated_at := now }

/-- The category update of `createProduct`: `$push: { product_ids }`,
`$inc: { product_count: 1 }`, `$set: { updated_at }`. -/
def pushToCategory (pid : String) (now : Nat) (c : Category) : Category :=
  { c with
    product_ids := c.product_ids ++ [pid]
    product_count := c.product_count + 1
    updated_at := now }

/-- The identical update on the subcategory document. -/
def pushToSubcategory (pid : String) (now : Nat) (c : Subcategory) : Subcategory :=
  { c with
    product_ids := c.product_ids ++ [pid]
    product_count := c.product_count + 1
    updated_at := now }

/-- `ProductService.createProduct`: allocate an identifier, insert the
product document, then push/increment on the category and the subcategory
documents.  Fails only when the identifier pipeline fails. -/
def createProduct (s : DBState) (d : ProductFormData) (urls : List String) :
    Option (Product × DBState) :=
  match getNextProductId s with
  | none => none
  | some pid =>
    let p := mkProduct pid d urls s.now
    some (p,
      { products := s.products ++ [p]
        categories :=
          updateFirst s.categories (fun c => c._id == d.category_id)
            (pushToCategory pid s.now)
        subcategories :=
          updateFirst s.subcategories (fun c => c._id == d.subcategory_id)
            (pushToSubcategory pid s.now)
        now := s.now + 1 })

/-- `ProductService.getProductById`: `findOne` by `_id`. -/
def getProductById (s : DBState) (pid : String) : Option Product :=
  s.products.find? (fun p => p._id == pid)

/-- `ProductService.getAllProducts`: every product, sorted by
`created_at` descending. -/
def getAllProducts (s : DBState) : List Product :=
  s.products.mergeSort (fun a b => decide (b.created_at ≤ a.created_at))

/-- The `$set: { ...updateData, updated_at: new Date() }` document of
`updateProduct`: each supplied field overwrites the stored one, and
`updated_at` is unconditionally refreshed. -/
def applySet (u : PartialProduct) (now : Nat) (p : Product) : Product :=
  { _id := p._id
    product_id := u.product_id.getD p.product_id
    product_name := u.product_name.getD p.product_name
    product_title := u.product_title.getD p.product_title
    product_description := u.product_description.getD p.product_description
    image_urls := u.image_urls.getD p.image_urls
    image_count := u.image_count.getD p.image_count
    subcategory_id := u.subcategory_id.getD p.subcategory_id
    category_id := u.category_id.getD p.category_id
    status := u.status.getD p.status
    created_at := u.created_at.getD p.created_at
    updated_at := now }

/-- `ProductService.updateProduct`: `updateOne` on the `products`
collection only; the `categories` and `subcategories` collections are
never touched. -/
def updateProduct (s : DBState) (pid : String) (u : PartialProduct) : DBState :=
  { s with
    products := updateFirst s.products (fun p => p._id == pid) (applySet u s.now)
    now := s.now + 1 }

/-- The category update of `deleteProduct`: `$pull: { product_ids }`
(removes every occurrence), `$inc: { product_count: -1 }` (unconditional),
`$set: { updated_at }`. -/
def pullFromCategory (pid : String) (now : Nat) (c : Category) : Category :=
  { c with
    product_ids := c.product_ids.filter (fun x => x != pid)
    product_count := c.product_count - 1
    updated_at := now }

/-- The identical removal on the subcategory document. -/
def pullFromSubcategory (pid : String) (now : Nat) (c : Subcategory) : Subcategory :=
  { c with
    product_ids := c.product_ids.filter (fun x => x != pid)
    product_count := c.product_count - 1
    updated_at := now }

/-- `ProductService.deleteProduct`: look the product up first and return
silently when it is absent; otherwise `deleteOne` the product and
pull/decrement on both parent documents named by the product record. -/
def deleteProduct (s : DBState) (pid : String) : DBState :=
  match getProductById s pid with
  | none => s
  | some p =>
    { products := deleteFirst s.products (fun q => q._id == pid)
      categories :=
        updateFirst s.categories (fun c => c._id == p.category_id)
          (pullFromCategory pid s.now)
      subcategories :=
        updateFirst s.subcategories (fun c => c._id == p.subcategory_id)
          (pullFromSubcategory pid s.now)
      now := s.now + 1 }

/-- Run a list of `createProduct` calls serially, collecting the allocated
`product_id`s in call order. -/
def runCreates : DBState → List (ProductFormData × List String) →
    Option (List String × DBState)
  | s, [] => some ([], s)
  | s, a :: rest =>
    match createProduct s a.1 a.2 with
    | none => none
    | some (p, s') =>
      match runCreates s' rest with
      | none => none
      | some (ids, s'') => some (p.product_id :: ids, s'')

/-! ## Spec-side allocator (for the refinement comparison of the allocator)

`specNextProductId` is written from the specification's words — "examines
all existing product identifiers matching the `prod_<digits>` pattern,
extracts the numeric suffix of each, takes the maximum (default 0 if none
exist), adds 1, and formats the result zero-padded to 4 digits with the
`prod_` prefix" — to be compared against `getNextProductId` above. -/

/-- A non-empty all-digit run after the five-character prefix. -/
def digitSuffix (id : String) : Bool :=
  !(id.data.drop 5).isEmpty && (id.data.drop 5).all isDigitChar

/-- The `prod_<digits>` pattern of the specification. -/
def matchesProdDigits (id : String) : Bool :=
  "prod_".data.isPrefixOf id.data && digitSuffix id

/-- The numeric suffix of a `prod_<digits>` identifier. -/
def specSuffixVal (id : String) : Nat := (parseDigits (id.data.drop 5) 0).getD 0

/-- Next identifier according to the specification's words. -/
def specNextProductId (s : DBState) : String :=
  ⟨"prod_".data ++
    padStart
      (natRepr
        ((((s.products.map (fun p => p._id)).filter matchesProdDigits).map
            specSuffixVal).foldr max 0 + 1))
      4 '0'⟩

/-! ## Concrete states for witnesses and counterexamples -/

/-- A sample creation payload. -/
def d0 : ProductFormData :=
  { product_name := "Widget", product_title := "Widget title",
    product_description := "A widget", category_id := "cat_1",
    subcategory_id := "sub_1" }

/-- An empty category. -/
def cat0 : Category :=
  { _id := "cat_1", name := "Gadgets", product_ids := [], product_count := 0,
    updated_at := 0 }

/-- An empty subcategory of `cat0`. -/
def sub0 : Subcategory :=
  { _id := "sub_1", name := "Small gadgets", category_id := "cat_1",
    product_ids := [], product_count := 0, updated_at := 0 }

/-- Initial state: no products, one category, one subcategory. -/
def s0 : DBState :=
  { products := [], categories := [cat0], subcategories := [sub0], now := 0 }

/-- The identifier the first creation allocates. -/
def pid0 : String := "prod_0001"

/-- Image URLs for the first creation. -/
def urls0 : List String := ["u1", "u2"]

/-- The product document created by the first creation in `s0`. -/
def p0 : Product := mkProduct pid0 d0 urls0 0

/-- The state after creating `p0` in `s0`. -/
def s1 : DBState :=
  { products := [p0], categories := [pushToCategory pid0 0 cat0],
    subcategories := [pushToSubcategory pid0 0 sub0], now := 1 }

/-- A drifted state: the product exists but neither parent's
`product_ids` list mentions it. -/
def sBad : DBState :=
  { products := [p0], categories := [cat0], subcategories := [sub0], now := 5 }

/-- A partial update that changes the parent references. -/
def uC5 : PartialProduct := { category_id := some ("cat_other"), subcategory_id := some ("sub_other") }

/-- A partial update supplying a new creation timestamp. -/
def uC6 : PartialProduct := { created_at := some 99 }

/-- A partial update that does not touch identifier or creation timestamp. -/
def uC6ok : PartialProduct := { product_description := some ("new description") }

/-- A partial update replacing the images without refreshing the count. -/
def uC7 : PartialProduct := { image_urls := some ["x"] }

/-- A partial update replacing the images together with a matching count. -/
def uC7ok : PartialProduct := { image_urls := some ["x"], image_count := some 1 }

/-- Two serial creation calls. -/
def argsC2 : List (ProductFormData × List String) := [(d0, urls0), (d0, [])]

/-- The identifier the service allocates for the `n`-th product when
creation calls run serially from an empty collection (`prod_0001` for
`n = 1`, and so on). -/
def nthProductId (n : Nat) : String := formatProductId ((n : Int))

/-- The identifier the second creation allocates. -/
def pid2 : String := "prod_0002"

/-! ## Lemmas about decimal parsing and rendering -/

theorem parseDigits_append (l₁ l₂ : List Char) (a : Nat) :
    parseDigits (l₁ ++ l₂) a = (parseDigits l₁ a).bind (fun b => parseDigits l₂ b) := by
  induction l₁ generalizing a with
  | nil => simp [parseDigits]
  | cons c cs ih =>
    simp only [List.cons_append, parseDigits]
    by_cases hc : isDigitChar c = true
    · simp [hc, ih]
    · simp [hc]

theorem digitChar_toNat (d : Nat) (h : d < 10) : (digitChar d).toNat = 48 + d := by
  interval_cases d <;> decide

theorem isDigitChar_digitChar (d : Nat) (h : d < 10) :
    isDigitChar (digitChar d) = true := by
  interval_cases d <;> decide

theorem parseDigits_digitChar_cons (d : Nat) (h : d < 10) (cs : List Char) (a : Nat) :
    parseDigits (digitChar d :: cs) a = parseDigits cs (a * 10 + d) := by
  simp [parseDigits, isDigitChar_digitChar d h, digitChar_toNat d h]

theorem parse_natToDigitsAux (fuel : Nat) :
    ∀ n ds, n < fuel → parseDigits (natToDigitsAux fuel n ds) 0 = parseDigits ds n := by
  induction fuel with
  | zero => intro n ds h; omega
  | succ fuel ih =>
    intro n ds h
    simp only [natToDigitsAux]
    by_cases h10 : n / 10 = 0
    · have hn : n < 10 := by omega
      simp only [h10, if_pos rfl, if_true]
      rw [parseDigits_digitChar_cons (n % 10) (Nat.mod_lt n (by omega))]
      have : n % 10 = n := Nat.mod_eq_of_lt hn
      simp [this]
    · have hlt : n / 10 < fuel := by
        have h1 : n / 10 < n := Nat.div_lt_self (by omega) (by omega)
        omega
      simp only [if_neg h10]
      rw [ih (n / 10) (digitChar (n % 10) :: ds) hlt]
      rw [parseDigits_digitChar_cons (n % 10) (Nat.mod_lt n (by omega))]
      have : n / 10 * 10 + n % 10 = n := by omega
      rw [this]

theorem parse_natRepr (n : Nat) : parseDigits (natRepr n) 0 = some n := by
  have h := parse_natToDigitsAux (n + 1) n [] (Nat.lt_succ_self n)
  simpa [natRepr, parseDigits] using h

theorem natToDigitsAux_all_digits (fuel : Nat) :
    ∀ n ds, ds.all isDigitChar = true →
      (natToDigitsAux fuel n ds).all isDigitChar = true := by
  induction fuel with
  | zero => intro n ds h; simpa [natToDigitsAux] using h
  | succ fuel ih =>
    intro n ds h
    have hd : isDigitChar (digitChar (n % 10)) = true :=
      isDigitChar_digitChar (n % 10) (Nat.mod_lt n (by omega))
    simp only [natToDigitsAux]
    by_cases h10 : n / 10 = 0
    · simp [h10, List.all_cons, hd, h]
    · simp only [if_neg h10]
      exact ih (n / 10) _ (by simp [List.all_cons, hd, h])

theorem natRepr_all_digits (n : Nat) : (natRepr n).all isDigitChar = true :=
  natToDigitsAux_all_digits (n + 1) n [] rfl

theorem natToDigitsAux_ne_nil (fuel : Nat) :
    ∀ n ds, ds ≠ [] → natToDigitsAux fuel n ds ≠ [] := by
  induction fuel with
  | zero => intro n ds h; simpa [natToDigitsAux] using h
  | succ fuel ih =>
    intro n ds _
    simp only [natToDigitsAux]
    by_cases h10 : n / 10 = 0
    · simp [h10]
    · simp only [if_neg h10]
      exact ih (n / 10) _ (by simp)

theorem natRepr_ne_nil (n : Nat) : natRepr n ≠ [] := by
  simp only [natRepr, natToDigitsAux]
  by_cases h10 : n / 10 = 0
  · simp [h10]
  · simp only [if_neg h10]
    exact natToDigitsAux_ne_nil n (n / 10) _ (by simp)

theorem parseDigits_replicate_zero (k : Nat) :
    parseDigits (List.replicate k '0') 0 = some 0 := by
  induction k with
  | zero => rfl
  | succ k ih =>
    rw [List.replicate_succ]
    have h1 : isDigitChar '0' = true := by decide
    simp only [parseDigits, if_pos h1]
    have h2 : 0 * 10 + ('0'.toNat - 48) = 0 := by decide
    rw [h2]
    exact ih

theorem parseDigits_bound (l : List Char) :
    ∀ a v, parseDigits l a = some v → v < (a + 1) * 10 ^ l.length := by
  induction l with
  | nil =>
    intro a v h
    simp [parseDigits] at h
    simp [← h]
  | cons c cs ih =>
    intro a v h
    simp only [parseDigits] at h
    by_cases hc : isDigitChar c = true
    · rw [if_pos hc] at h
      have hd : c.toNat - 48 ≤ 9 := by
        simp [isDigitChar] at hc
        omega
      have := ih (a * 10 + (c.toNat - 48)) v h
      have hle : (a * 10 + (c.toNat - 48) + 1) * 10 ^ cs.length ≤
          (a + 1) * 10 ^ (c :: cs).length := by
        simp only [List.length_cons, pow_succ]
        have : a * 10 + (c.toNat - 48) + 1 ≤ (a + 1) * 10 := by omega
        calc (a * 10 + (c.toNat - 48) + 1) * 10 ^ cs.length
            ≤ (a + 1) * 10 * 10 ^ cs.length :=
              Nat.mul_le_mul_right _ this
          _ = (a + 1) * (10 ^ cs.length * 10) := by ring
      omega
    · rw [if_neg hc] at h
      exact absurd h (by simp)

theorem parseDigits_all_isSome (cs : List Char) :
    ∀ a, cs.all isDigitChar = true → ∃ v, parseDigits cs a = some v := by
  induction cs with
  | nil => intro a _; exact ⟨a, rfl⟩
  | cons c t ih =>
    intro a h
    simp only [List.all_cons, Bool.and_eq_true] at h
    simp only [parseDigits, if_pos h.1]
    exact ih _ h.2

theorem toIntM_digits (cs : List Char) (hne : cs ≠ [])
    (hall : cs.all isDigitChar = true) :
    toIntM cs = (parseDigits cs 0).map (fun v => (v : Int)) := by
  cases cs with
  | nil => exact absurd rfl hne
  | cons c t =>
    have hc : isDigitChar c = true := by
      simp only [List.all_cons, Bool.and_eq_true] at hall
      exact hall.1
    have hcm : c ≠ '-' := by
      intro hcontra
      rw [hcontra] at hc
      simp [isDigitChar] at hc
    simp [toIntM, if_neg hcm]

/-! ## Lemmas about identifier formatting -/

theorem intRepr_ofNat (m : Nat) : intRepr ((m : Nat) : Int) = natRepr m := by
  have h1 : ¬ ((m : Int) < 0) := by omega
  simp [intRepr, h1]

theorem isPrefixOf_append_self (l r : List Char) : l.isPrefixOf (l ++ r) = true := by
  exact List.isPrefixOf_iff_prefix.mpr (List.prefix_append l r)

theorem formatProductId_data (n : Int) :
    (formatProductId n).data = "prod_".data ++ padStart (intRepr n) 4 '0' := rfl

theorem matchesProdRegex_formatProductId (n : Int) :
    matchesProdRegex (formatProductId n) = true := by
  rw [matchesProdRegex, formatProductId_data]
  exact isPrefixOf_append_self _ _

theorem data_drop_five (l : List Char) :
    (("prod_".data ++ l).drop 5) = l := by
  have h : ("prod_".data).length = 5 := rfl
  rw [← h, List.drop_left]

theorem padStart_all_digits (l : List Char) (h : l.all isDigitChar = true) :
    (padStart l 4 '0').all isDigitChar = true := by
  rw [padStart]
  simp only [List.all_append, Bool.and_eq_true]
  refine ⟨?_, h⟩
  simp only [List.all_eq_true]
  intro c hc
  rw [List.eq_of_mem_replicate hc]
  decide

theorem parseDigits_padStart (l : List Char) (v : Nat)
    (h : parseDigits l 0 = some v) : parseDigits (padStart l 4 '0') 0 = some v := by
  rw [padStart, parseDigits_append, parseDigits_replicate_zero]
  simpa using h

theorem numericPart_formatProductId (n : Int) (h : 0 ≤ n) :
    numericPart (formatProductId n) = some n := by
  rw [numericPart, formatProductId_data, data_drop_five]
  have hrep : intRepr n = natRepr n.toNat := by
    rw [intRepr, if_neg (by omega)]
  rw [hrep]
  have hall : (padStart (natRepr n.toNat) 4 '0').all isDigitChar = true :=
    padStart_all_digits _ (natRepr_all_digits _)
  have hne : padStart (natRepr n.toNat) 4 '0' ≠ [] := by
    rw [padStart]
    intro hcontra
    exact natRepr_ne_nil n.toNat (List.append_eq_nil.mp hcontra).2
  rw [toIntM_digits _ hne hall, parseDigits_padStart _ _ (parse_natRepr n.toNat)]
  simp [Int.toNat_of_nonneg h]

theorem formatProductId_inj_nonneg (a b : Int) (ha : 0 ≤ a) (hb : 0 ≤ b)
    (h : formatProductId a = formatProductId b) : a = b := by
  have h1 := numericPart_formatProductId a ha
  have h2 := numericPart_formatProductId b hb
  rw [h, h2] at h1
  exact (Option.some_inj.mp h1).symm

/-! ## Lemmas about `maxInt` and maxima -/

theorem le_foldl_max (xs : List Int) : ∀ x : Int, x ≤ xs.foldl max x := by
  induction xs with
  | nil => intro x; simp
  | cons y ys ih =>
    intro x
    simp only [List.foldl_cons]
    exact le_trans (le_max_left x y) (ih (max x y))

theorem mem_le_foldl_max (xs : List Int) : ∀ x y : Int, y ∈ xs → y ≤ xs.foldl max x := by
  induction xs with
  | nil => intro x y h; simp at h
  | cons z zs ih =>
    intro x y h
    rcases List.mem_cons.mp h with rfl | hmem
    · simp only [List.foldl_cons]
      exact le_trans (le_max_right x y) (le_foldl_max zs (max x y))
    · exact ih (max x z) y hmem

theorem foldl_max_mem (xs : List Int) : ∀ x : Int, xs.foldl max x = x ∨ xs.foldl max x ∈ xs := by
  induction xs with
  | nil => intro x; left; rfl
  | cons y ys ih =>
    intro x
    simp only [List.foldl_cons]
    rcases ih (max x y) with heq | hmem
    · rcases max_choice x y with hx | hy
      · left; rw [heq, hx]
      · right; rw [heq, hy]; exact List.mem_cons_self y ys
    · right; exact List.mem_cons_of_mem y hmem

theorem maxInt_eq_some (l : List Int) (a : Int) (ha : a ∈ l)
    (hub : ∀ y ∈ l, y ≤ a) : maxInt l = some a := by
  cases l with
  | nil => simp at ha
  | cons x xs =>
    rw [maxInt]
    congr 1
    have h1 : xs.foldl max x ≤ a := by
      rcases foldl_max_mem xs x with heq | hmem
      · rw [heq]; exact hub x (List.mem_cons_self x xs)
      · exact hub _ (List.mem_cons_of_mem x hmem)
    have h2 : a ≤ xs.foldl max x := by
      rcases List.mem_cons.mp ha with rfl | hmem
      · exact le_foldl_max xs a
      · exact mem_le_foldl_max xs x a hmem
    omega

/-! ## Lemmas about `updateFirst`, `deleteFirst`, `projectNums` -/

theorem mem_updateFirst {α : Type} (l : List α) (pred : α → Bool) (f : α → α)
    (x : α) (hx : x ∈ l) (hpx : pred x = true)
    (huniq : ∀ y ∈ l, pred y = true → y = x) :
    f x ∈ updateFirst l pred f := by
  induction l with
  | nil => simp at hx
  | cons z zs ih =>
    by_cases hz : pred z = true
    · have hzx : z = x := huniq z (List.mem_cons_self z zs) hz
      rw [updateFirst, if_pos hz, hzx]
      exact List.mem_cons_self _ _
    · rw [updateFirst, if_neg hz]
      have hxz : x ∈ zs := by
        rcases List.mem_cons.mp hx with rfl | hmem
        · exact absurd hpx hz
        · exact hmem
      exact List.mem_cons_of_mem z
        (ih hxz (fun y hy hpy => huniq y (List.mem_cons_of_mem z hy) hpy))

theorem not_mem_deleteFirst (l : List Product) (pid : String)
    (hnodup : (l.map (fun p => p._id)).Nodup) :
    ∀ q ∈ deleteFirst l (fun p => p._id == pid), q._id ≠ pid := by
  induction l with
  | nil => intro q hq; simp [deleteFirst] at hq
  | cons x xs ih =>
    intro q hq
    simp only [List.map_cons, List.nodup_cons] at hnodup
    by_cases hx : (x._id == pid) = true
    · rw [deleteFirst, if_pos hx] at hq
      have hxpid : x._id = pid := by simpa using hx
      intro hcontra
      apply hnodup.1
      rw [hxpid, ← hcontra]
      exact List.mem_map_of_mem (fun p => p._id) hq
    · rw [deleteFirst, if_neg hx] at hq
      rcases List.mem_cons.mp hq with rfl | hmem
      · simpa using hx
      · exact ih hnodup.2 q hmem

theorem projectNums_eq_map (l : List Product) (g : Product → Int)
    (h : ∀ p ∈ l, numericPart p._id = some (g p)) :
    projectNums l = some (l.map g) := by
  induction l with
  | nil => rfl
  | cons p ps ih =>
    rw [projectNums, h p (List.mem_cons_self p ps),
      ih (fun q hq => h q (List.mem_cons_of_mem p hq))]
    simp

/-! ## Sequential identifier allocation -/

theorem numericPart_nthProductId (n : Nat) :
    numericPart (nthProductId n) = some ((n : Int)) :=
  numericPart_formatProductId _ (by omega)

theorem createProduct_state (s : DBState) (d : ProductFormData)
    (urls : List String) (pid : String) (h : getNextProductId s = some pid) :
    createProduct s d urls = some (mkProduct pid d urls s.now,
      { products := s.products ++ [mkProduct pid d urls s.now]
        categories :=
          updateFirst s.categories (fun c => c._id == d.category_id)
            (pushToCategory pid s.now)
        subcategories :=
          updateFirst s.subcategories (fun c => c._id == d.subcategory_id)
            (pushToSubcategory pid s.now)
        now := s.now + 1 }) := by
  simp only [createProduct, h]

theorem getNextProductId_of_seq (s : DBState) (k : Nat)
    (h : s.products.map (fun p => p._id) =
      (List.range k).map (fun i => nthProductId (i + 1))) :
    getNextProductId s = some (nthProductId (k + 1)) := by
  have hid : ∀ p ∈ s.products, ∃ i, i < k ∧ p._id = nthProductId (i + 1) := by
    intro p hp
    have h1 : p._id ∈ s.products.map (fun p => p._id) :=
      List.mem_map_of_mem (fun p => p._id) hp
    rw [h] at h1
    rcases List.mem_map.mp h1 with ⟨i, hi, heq⟩
    exact ⟨i, List.mem_range.mp hi, heq.symm⟩
  have hAll : ∀ p ∈ s.products, matchesProdRegex p._id = true := by
    intro p hp
    rcases hid p hp with ⟨i, _, heq⟩
    rw [heq]
    exact matchesProdRegex_formatProductId _
  have hfilter : s.products.filter (fun p => matchesProdRegex p._id) = s.products :=
    List.filter_eq_self.mpr hAll
  have hnum : ∀ p ∈ s.products, numericPart p._id = some ((numericPart p._id).getD 0) := by
    intro p hp
    rcases hid p hp with ⟨i, _, heq⟩
    rw [heq, numericPart_nthProductId]
    rfl
  have hproj : projectNums s.products =
      some (s.products.map (fun p => (numericPart p._id).getD 0)) :=
    projectNums_eq_map _ _ hnum
  have hmapg : s.products.map (fun p => (numericPart p._id).getD 0)
      = (List.range k).map (fun (i : Nat) => (((i + 1 : Nat)) : Int)) := by
    have h2 : s.products.map (fun p => (numericPart p._id).getD 0)
        = (s.products.map (fun p => p._id)).map (fun id => (numericPart id).getD 0) := by
      rw [List.map_map]
      rfl
    rw [h2, h, List.map_map]
    apply List.map_congr_left
    intro i _
    simp only [Function.comp_apply]
    rw [numericPart_nthProductId]
    rfl
  have hnext : nextNumOf ((List.range k).map (fun (i : Nat) => (((i + 1 : Nat)) : Int)))
      = ((k + 1 : Nat) : Int) := by
    cases k with
    | zero => norm_num [nextNumOf, maxInt]
    | succ j =>
      have hmax : maxInt ((List.range (j + 1)).map (fun (i : Nat) => (((i + 1 : Nat)) : Int)))
          = some (((j + 1 : Nat)) : Int) := by
        apply maxInt_eq_some
        · exact List.mem_map.mpr ⟨j, List.mem_range.mpr (Nat.lt_succ_self j), rfl⟩
        · intro y hy
          rcases List.mem_map.mp hy with ⟨i, hi, rfl⟩
          have h3 : i ≤ j := Nat.lt_succ_iff.mp (List.mem_range.mp hi)
          omega
      rw [nextNumOf, hmax]
      push_cast
      ring
  simp only [getNextProductId, hfilter, hproj, hmapg, hnext]
  rfl

theorem runCreates_seq (args : List (ProductFormData × List String)) :
    ∀ (s : DBState) (k : Nat),
      s.products.map (fun p => p._id) =
        (List.range k).map (fun i => nthProductId (i + 1)) →
      ∃ s', runCreates s args =
        some ((List.range args.length).map (fun j => nthProductId (k + j + 1)), s') := by
  induction args with
  | nil =>
    intro s k _
    exact ⟨s, rfl⟩
  | cons a rest ih =>
    intro s k h
    have hnext : getNextProductId s = some (nthProductId (k + 1)) :=
      getNextProductId_of_seq s k h
    have hcreate := createProduct_state s a.1 a.2 _ hnext
    have hids : (s.products ++ [mkProduct (nthProductId (k + 1)) a.1 a.2 s.now]).map
          (fun p => p._id)
        = (List.range (k + 1)).map (fun i => nthProductId (i + 1)) := by
      rw [List.map_append, h, List.range_succ, List.map_append]
      rfl
    obtain ⟨s'', hrest⟩ := ih
      { products := s.products ++ [mkProduct (nthProductId (k + 1)) a.1 a.2 s.now]
        categories :=
          updateFirst s.categories (fun c => c._id == a.1.category_id)
            (pushToCategory (nthProductId (k + 1)) s.now)
        subcategories :=
          updateFirst s.subcategories (fun c => c._id == a.1.subcategory_id)
            (pushToSubcategory (nthProductId (k + 1)) s.now)
        now := s.now + 1 }
      (k + 1) hids
    refine ⟨s'', ?_⟩
    simp only [runCreates, hcreate, hrest]
    have hlist : (mkProduct (nthProductId (k + 1)) a.1 a.2 s.now).product_id ::
        (List.range rest.length).map (fun j => nthProductId (k + 1 + j + 1))
        = (List.range (rest.length + 1)).map (fun j => nthProductId (k + j + 1)) := by
      rw [List.range_succ_eq_map, List.map_cons, List.map_map]
      congr 1
      apply List.map_congr_left
      intro j _
      simp only [Function.comp_apply]
      congr 1
      omega
    rw [List.length_cons, ← hlist]

/-! ## Claim C2 -/

/-- C2: starting from a state with no product documents, a sequence of
serial `createProduct` calls yields, in call order, exactly the identifiers
with numeric suffixes 1, 2, …, N (formatted by the service's template,
`prod_0001`, `prod_0002`, …), pairwise distinct and strictly increasing in
numeric suffix. -/
theorem serial_creates_yield_sequential_ids (s : DBState)
    (args : List (ProductFormData × List String)) (h : s.products = []) :
    (∃ s', runCreates s args =
      some ((List.range args.length).map (fun k => nthProductId (k + 1)), s')) ∧
    ((List.range args.length).map (fun k => nthProductId (k + 1))).Nodup ∧
    List.Pairwise
      (fun a b => ∃ x y, numericPart a = some x ∧ numericPart b = some y ∧ x < y)
      ((List.range args.length).map (fun k => nthProductId (k + 1))) := by
  refine ⟨?_, ?_, ?_⟩
  · obtain ⟨s', hs'⟩ := runCreates_seq args s 0 (by simp [h])
    have heq : (List.range args.length).map (fun j => nthProductId (0 + j + 1))
        = (List.range args.length).map (fun k => nthProductId (k + 1)) := by
      apply List.map_congr_left
      intro j _
      congr 1
      omega
    exact ⟨s', by rw [← heq]; exact hs'⟩
  · have hinj : Function.Injective (fun k : Nat => nthProductId (k + 1)) := by
      intro a b hab
      simp only at hab
      have h1 := numericPart_nthProductId (a + 1)
      rw [hab, numericPart_nthProductId] at h1
      have h2 : ((b + 1 : Nat) : Int) = ((a + 1 : Nat) : Int) := Option.some_inj.mp h1
      omega
    exact (List.nodup_range args.length).map hinj
  · refine List.pairwise_map.mpr ((List.pairwise_lt_range args.length).imp ?_)
    intro i j hij
    exact ⟨((i + 1 : Nat) : Int), ((j + 1 : Nat) : Int),
      numericPart_nthProductId _, numericPart_nthProductId _, by omega⟩

/-- C2 witness: two serial creations from the empty state allocate
`prod_0001` then `prod_0002`. -/
theorem serial_creates_yield_sequential_ids_witness :
    s0.products = [] ∧
    (List.range argsC2.length).map (fun k => nthProductId (k + 1)) = [pid0, pid2] ∧
    (∃ s', runCreates s0 argsC2 =
      some ((List.range argsC2.length).map (fun k => nthProductId (k + 1)), s')) := by
  refine ⟨rfl, by decide, ?_⟩
  exact (serial_creates_yield_sequential_ids s0 argsC2 rfl).1

/-! ## Claim C1 -/

/-- C1: when the parents referenced by a creation payload exist, satisfy
`product_count = length product_ids`, and do not already contain the new
identifier, a successful `createProduct` appends the new identifier exactly
once to both parents' `product_ids` lists and increments both
`product_count` fields by 1, so each parent again has
`product_count = length product_ids` and contains the identifier exactly
once. -/
theorem createProduct_parent_invariants
    (s : DBState) (d : ProductFormData) (urls : List String)
    (p : Product) (s' : DBState) (cat : Category) (sub : Subcategory)
    (hrun : createProduct s d urls = some (p, s'))
    (hcat : cat ∈ s.categories) (hcid : cat._id = d.category_id)
    (hcnodup : (s.categories.map (fun c => c._id)).Nodup)
    (hccnt : cat.product_count = (cat.product_ids.length : Int))
    (hcnew : p.product_id ∉ cat.product_ids)
    (hsub : sub ∈ s.subcategories) (hsid : sub._id = d.subcategory_id)
    (hsnodup : (s.subcategories.map (fun c => c._id)).Nodup)
    (hscnt : sub.product_count = (sub.product_ids.length : Int))
    (hsnew : p.product_id ∉ sub.product_ids) :
    (∃ cat' ∈ s'.categories, cat'._id = cat._id ∧
      cat'.product_ids = cat.product_ids ++ [p.product_id] ∧
      cat'.product_count = cat.product_count + 1 ∧
      cat'.product_count = (cat'.product_ids.length : Int) ∧
      cat'.product_ids.count p.product_id = 1) ∧
    (∃ sub' ∈ s'.subcategories, sub'._id = sub._id ∧
      sub'.product_ids = sub.product_ids ++ [p.product_id] ∧
      sub'.product_count = sub.product_count + 1 ∧
      sub'.product_count = (sub'.product_ids.length : Int) ∧
      sub'.product_ids.count p.product_id = 1) := by
  cases hg : getNextProductId s with
  | none => simp [createProduct, hg] at hrun
  | some pid =>
    rw [createProduct_state s d urls pid hg] at hrun
    have hpair : mkProduct pid d urls s.now = p ∧
        ({ products := s.products ++ [mkProduct pid d urls s.now]
           categories :=
             updateFirst s.categories (fun c => c._id == d.category_id)
               (pushToCategory pid s.now)
           subcategories :=
             updateFirst s.subcategories (fun c => c._id == d.subcategory_id)
               (pushToSubcategory pid s.now)
           now := s.now + 1 } : DBState) = s' := by
      have h1 := Option.some_inj.mp hrun
      exact ⟨congrArg Prod.fst h1, congrArg Prod.snd h1⟩
    have hpid : p.product_id = pid := by rw [← hpair.1]; rfl
    have hcats : s'.categories =
        updateFirst s.categories (fun c => c._id == d.category_id)
          (pushToCategory pid s.now) := by rw [← hpair.2]
    have hsubs : s'.subcategories =
        updateFirst s.subcategories (fun c => c._id == d.subcategory_id)
          (pushToSubcategory pid s.now) := by rw [← hpair.2]
    constructor
    · have hpredc : (fun c => c._id == d.category_id) cat = true := by
        simp [hcid]
      have huniqc : ∀ y ∈ s.categories,
          (fun c => c._id == d.category_id) y = true → y = cat := by
        intro y hy hpy
        simp only [beq_iff_eq] at hpy
        exact List.inj_on_of_nodup_map hcnodup hy hcat (by rw [hpy, hcid])
      have hmem := mem_updateFirst s.categories _ (pushToCategory pid s.now)
        cat hcat hpredc huniqc
      refine ⟨pushToCategory pid s.now cat, by rw [hcats]; exact hmem,
        rfl, ?_, rfl, ?_, ?_⟩
      · rw [pushToCategory, hpid]
      · rw [pushToCategory]
        simp only [List.length_append, List.length_singleton]
        push_cast
        omega
      · rw [pushToCategory, hpid]
        simp only [List.count_append, List.count_singleton, beq_self_eq_true,
          if_pos]
        rw [List.count_eq_zero.mpr (by rw [← hpid]; exact hcnew)]
    · have hpreds : (fun c => c._id == d.subcategory_id) sub = true := by
        simp [hsid]
      have huniqs : ∀ y ∈ s.subcategories,
          (fun c => c._id == d.subcategory_id) y = true → y = sub := by
        intro y hy hpy
        simp only [beq_iff_eq] at hpy
        exact List.inj_on_of_nodup_map hsnodup hy hsub (by rw [hpy, hsid])
      have hmem := mem_updateFirst s.subcategories _ (pushToSubcategory pid s.now)
        sub hsub hpreds huniqs
      refine ⟨pushToSubcategory pid s.now sub, by rw [hsubs]; exact hmem,
        rfl, ?_, rfl, ?_, ?_⟩
      · rw [pushToSubcategory, hpid]
      · rw [pushToSubcategory]
        simp only [List.length_append, List.length_singleton]
        push_cast
        omega
      · rw [pushToSubcategory, hpid]
        simp only [List.count_append, List.count_singleton, beq_self_eq_true,
          if_pos]
        rw [List.count_eq_zero.mpr (by rw [← hpid]; exact hsnew)]

/-- C1 witness: creating in the concrete state `s0` populates `cat_1`'s
back-references as the invariant demands. -/
theorem createProduct_parent_invariants_witness :
    createProduct s0 d0 urls0 = some (p0, s1) ∧
    (∃ cat' ∈ s1.categories, cat'._id = cat0._id ∧
      cat'.product_ids = cat0.product_ids ++ [p0.product_id] ∧
      cat'.product_count = cat0.product_count + 1 ∧
      cat'.product_count = (cat'.product_ids.length : Int) ∧
      cat'.product_ids.count p0.product_id = 1) := by
  have h := createProduct_parent_invariants s0 d0 urls0 p0 s1 cat0 sub0
    (by decide) (by decide) (by decide) (by decide) (by decide) (by decide)
    (by decide) (by decide) (by decide) (by decide) (by decide)
  exact ⟨by decide, h.1⟩

/-! ## Claim C3 -/

theorem foldr_max_mem_nat (l : List Nat) (h : l ≠ []) : l.foldr max 0 ∈ l := by
  induction l with
  | nil => exact absurd rfl h
  | cons x xs ih =>
    cases xs with
    | nil => simp
    | cons y ys =>
      rw [List.foldr_cons]
      rcases max_choice x ((y :: ys).foldr max 0) with h1 | h1
      · rw [h1]
        exact List.mem_cons_self _ _
      · rw [h1]
        exact List.mem_cons_of_mem x (ih (by simp))

theorem foldr_max_ub_nat (l : List Nat) : ∀ y ∈ l, y ≤ l.foldr max 0 := by
  induction l with
  | nil => intro y hy; simp at hy
  | cons x xs ih =>
    intro y hy
    rcases List.mem_cons.mp hy with rfl | hmem
    · exact le_max_left _ _
    · exact le_trans (ih y hmem) (le_max_right _ _)

theorem numericPart_of_digitSuffix (id : String) (h : digitSuffix id = true) :
    numericPart id = some (((specSuffixVal id : Nat)) : Int) := by
  rw [digitSuffix, Bool.and_eq_true] at h
  have hne : id.data.drop 5 ≠ [] := by
    intro hcontra
    rw [hcontra] at h
    simp at h
  obtain ⟨v, hv⟩ := parseDigits_all_isSome _ 0 h.2
  rw [numericPart, toIntM_digits _ hne h.2, hv, specSuffixVal, hv]
  rfl

theorem formatProductId_ofNat (m : Nat) :
    formatProductId ((m : Nat) : Int) = ⟨"prod_".data ++ padStart (natRepr m) 4 '0'⟩ := by
  rw [formatProductId, intRepr_ofNat]

/-- C3: `getNextProductId` refines the specification's allocator.  On any
state whose `prod_`-prefixed product keys all carry a non-empty all-digit
suffix, it returns exactly the spec's value — the maximum existing numeric
suffix (default 0) plus one, rendered zero-padded to four digits behind
`prod_` — and the result is a function of the current `products` collection
alone: the identifier is recomputed by scanning state, with no persisted
counter. -/
theorem getNextProductId_refines_spec (s : DBState)
    (hwf : ∀ p ∈ s.products, matchesProdRegex p._id = true → digitSuffix p._id = true) :
    getNextProductId s = some (specNextProductId s) ∧
    (∀ t : DBState, t.products = s.products → getNextProductId t = getNextProductId s) := by
  constructor
  · have hpred : ∀ p ∈ s.products,
        matchesProdDigits p._id = matchesProdRegex p._id := by
      intro p hp
      have hsplit : matchesProdDigits p._id
          = (matchesProdRegex p._id && digitSuffix p._id) := rfl
      cases hr : matchesProdRegex p._id with
      | false => rw [hsplit, hr]; rfl
      | true => rw [hsplit, hr, hwf p hp hr]; rfl
    have key1 : (s.products.map (fun p => p._id)).filter matchesProdDigits
        = (s.products.filter (fun p => matchesProdRegex p._id)).map (fun p => p._id) := by
      rw [List.filter_map]
      congr 1
      apply List.filter_congr
      intro p hp
      exact hpred p hp
    have key2 : ∀ p ∈ s.products.filter (fun p => matchesProdRegex p._id),
        numericPart p._id = some (((specSuffixVal p._id : Nat)) : Int) := by
      intro p hp
      have hmem := List.mem_of_mem_filter hp
      have hr := List.of_mem_filter hp
      exact numericPart_of_digitSuffix _ (hwf p hmem hr)
    have hproj := projectNums_eq_map
      (s.products.filter (fun p => matchesProdRegex p._id))
      (fun p => (((specSuffixVal p._id : Nat)) : Int)) key2
    have hms : ((s.products.map (fun p => p._id)).filter matchesProdDigits).map specSuffixVal
        = (s.products.filter (fun p => matchesProdRegex p._id)).map
            (fun p => specSuffixVal p._id) := by
      rw [key1, List.map_map]
      rfl
    have hnums : (s.products.filter (fun p => matchesProdRegex p._id)).map
          (fun p => (((specSuffixVal p._id : Nat)) : Int))
        = ((s.products.filter (fun p => matchesProdRegex p._id)).map
            (fun p => specSuffixVal p._id)).map (fun v => ((v : Nat) : Int)) := by
      rw [List.map_map]
      rfl
    have hspec : specNextProductId s = ⟨"prod_".data ++
        padStart (natRepr (((s.products.filter (fun p => matchesProdRegex p._id)).map
          (fun p => specSuffixVal p._id)).foldr max 0 + 1)) 4 '0'⟩ := by
      rw [specNextProductId, hms]
    cases hM : (s.products.filter (fun p => matchesProdRegex p._id)).map
        (fun p => specSuffixVal p._id) with
    | nil =>
      have hF : s.products.filter (fun p => matchesProdRegex p._id) = [] :=
        List.map_eq_nil_iff.mp hM
      simp only [getNextProductId, hF, projectNums]
      rw [hspec, hM]
      have h1 : nextNumOf [] = ((1 : Nat) : Int) := by norm_num [nextNumOf, maxInt]
      rw [h1, formatProductId_ofNat]
      rfl
    | cons v vs =>
      have hmax : maxInt (((v :: vs) : List Nat).map (fun x => ((x : Nat) : Int)))
          = some ((((v :: vs).foldr max 0 : Nat)) : Int) := by
        apply maxInt_eq_some
        · exact List.mem_map.mpr ⟨_, foldr_max_mem_nat _ (by simp), rfl⟩
        · intro y hy
          rcases List.mem_map.mp hy with ⟨x, hx, rfl⟩
          exact_mod_cast foldr_max_ub_nat _ x hx
      simp only [getNextProductId, hproj, hnums, hM]
      rw [hspec, hM]
      have h1 : nextNumOf (((v :: vs) : List Nat).map (fun x => ((x : Nat) : Int)))
          = ((((v :: vs).foldr max 0 + 1 : Nat)) : Int) := by
        rw [nextNumOf, hmax]
        push_cast
        ring
      rw [h1, formatProductId_ofNat]
  · intro t ht
    simp only [getNextProductId, ht]

/-- C3 witness: in the concrete one-product state `s1` the code and the
spec-side allocator agree, both producing `prod_0002`. -/
theorem getNextProductId_refines_spec_witness :
    (∀ p ∈ s1.products, matchesProdRegex p._id = true → digitSuffix p._id = true) ∧
    getNextProductId s1 = some (specNextProductId s1) ∧
    getNextProductId s1 = some pid2 := by
  refine ⟨by decide, (getNextProductId_refines_spec s1 (by decide)).1, by decide⟩

/-! ## Claim C4 -/

/-- C4: `deleteProduct` is a silent no-op when no product carries the
identifier (the state is unchanged, no error); when the product exists, the
product record is removed, the identifier is pulled from the referenced
category's and subcategory's product-ID lists, and both parents'
`product_count` fields are decremented by exactly 1, leaving the identifier
absent from both parent lists. -/
theorem deleteProduct_spec (s : DBState) (pid : String)
    (hpnodup : (s.products.map (fun q => q._id)).Nodup)
    (hcnodup : (s.categories.map (fun c => c._id)).Nodup)
    (hsnodup : (s.subcategories.map (fun c => c._id)).Nodup) :
    (getProductById s pid = none → deleteProduct s pid = s) ∧
    (∀ p, getProductById s pid = some p →
      (∀ q ∈ (deleteProduct s pid).products, q._id ≠ pid) ∧
      (∀ cat ∈ s.categories, cat._id = p.category_id →
        ∃ cat' ∈ (deleteProduct s pid).categories, cat'._id = cat._id ∧
          cat'.product_ids = cat.product_ids.filter (fun x => x != pid) ∧
          cat'.product_count = cat.product_count - 1 ∧
          pid ∉ cat'.product_ids) ∧
      (∀ sub ∈ s.subcategories, sub._id = p.subcategory_id →
        ∃ sub' ∈ (deleteProduct s pid).subcategories, sub'._id = sub._id ∧
          sub'.product_ids = sub.product_ids.filter (fun x => x != pid) ∧
          sub'.product_count = sub.product_count - 1 ∧
          pid ∉ sub'.product_ids)) := by
  constructor
  · intro h
    simp only [deleteProduct, h]
  · intro p hp
    have hdel : deleteProduct s pid =
        { products := deleteFirst s.products (fun q => q._id == pid)
          categories :=
            updateFirst s.categories (fun c => c._id == p.category_id)
              (pullFromCategory pid s.now)
          subcategories :=
            updateFirst s.subcategories (fun c => c._id == p.subcategory_id)
              (pullFromSubcategory pid s.now)
          now := s.now + 1 } := by
      simp only [deleteProduct, hp]
    refine ⟨?_, ?_, ?_⟩
    · rw [hdel]
      exact not_mem_deleteFirst s.products pid hpnodup
    · intro cat hcat hcid
      have hpredc : (fun c => c._id == p.category_id) cat = true := by
        simp [hcid]
      have huniqc : ∀ y ∈ s.categories,
          (fun c => c._id == p.category_id) y = true → y = cat := by
        intro y hy hpy
        simp only [beq_iff_eq] at hpy
        exact List.inj_on_of_nodup_map hcnodup hy hcat (by rw [hpy, hcid])
      have hmem := mem_updateFirst s.categories _ (pullFromCategory pid s.now)
        cat hcat hpredc huniqc
      refine ⟨pullFromCategory pid s.now cat, by rw [hdel]; exact hmem,
        rfl, rfl, rfl, ?_⟩
      intro hmem2
      have hfalse := List.of_mem_filter hmem2
      simp at hfalse
    · intro sub hsub hsid
      have hpreds : (fun c => c._id == p.subcategory_id) sub = true := by
        simp [hsid]
      have huniqs : ∀ y ∈ s.subcategories,
          (fun c => c._id == p.subcategory_id) y = true → y = sub := by
        intro y hy hpy
        simp only [beq_iff_eq] at hpy
        exact List.inj_on_of_nodup_map hsnodup hy hsub (by rw [hpy, hsid])
      have hmem := mem_updateFirst s.subcategories _ (pullFromSubcategory pid s.now)
        sub hsub hpreds huniqs
      refine ⟨pullFromSubcategory pid s.now sub, by rw [hdel]; exact hmem,
        rfl, rfl, rfl, ?_⟩
      intro hmem2
      have hfalse := List.of_mem_filter hmem2
      simp at hfalse

/-- C4 witness: deleting the absent `prod_0002` leaves the concrete state
`s1` untouched, and deleting the existing `prod_0001` removes its record. -/
theorem deleteProduct_spec_witness :
    getProductById s1 pid2 = none ∧ deleteProduct s1 pid2 = s1 ∧
    getProductById s1 pid0 = some p0 ∧
    (∀ q ∈ (deleteProduct s1 pid0).products, q._id ≠ pid0) := by
  have h := deleteProduct_spec s1 pid2 (by decide) (by decide) (by decide)
  have h2 := deleteProduct_spec s1 pid0 (by decide) (by decide) (by decide)
  exact ⟨by decide, h.1 (by decide), by decide, (h2.2 p0 (by decide)).1⟩

/-! ## Claim C10 -/

/-- C10: the `$inc: -1` of `deleteProduct` is unconditional.  When the
deleted product's identifier is absent from a parent's product-ID list
while `product_count` equals the list length, deletion leaves the list
unchanged yet still subtracts 1, driving that parent's `product_count`
strictly below the length of its product-ID list; this holds for the
category and the subcategory alike. -/
theorem deleteProduct_unconditional_decrement (s : DBState) (pid : String)
    (p : Product) (hfind : getProductById s pid = some p)
    (cat : Category) (hcat : cat ∈ s.categories) (hcid : cat._id = p.category_id)
    (hcnodup : (s.categories.map (fun c => c._id)).Nodup)
    (hcnotin : pid ∉ cat.product_ids)
    (hccnt : cat.product_count = (cat.product_ids.length : Int))
    (sub : Subcategory) (hsub : sub ∈ s.subcategories)
    (hsid : sub._id = p.subcategory_id)
    (hsnodup : (s.subcategories.map (fun c => c._id)).Nodup)
    (hsnotin : pid ∉ sub.product_ids)
    (hscnt : sub.product_count = (sub.product_ids.length : Int)) :
    (∃ cat' ∈ (deleteProduct s pid).categories, cat'._id = cat._id ∧
      cat'.product_ids = cat.product_ids ∧
      cat'.product_count = cat.product_count - 1 ∧
      cat'.product_count < (cat'.product_ids.length : Int)) ∧
    (∃ sub' ∈ (deleteProduct s pid).subcategories, sub'._id = sub._id ∧
      sub'.product_ids = sub.product_ids ∧
      sub'.product_count = sub.product_count - 1 ∧
      sub'.product_count < (sub'.product_ids.length : Int)) := by
  have hdel : deleteProduct s pid =
      { products := deleteFirst s.products (fun q => q._id == pid)
        categories :=
          updateFirst s.categories (fun c => c._id == p.category_id)
            (pullFromCategory pid s.now)
        subcategories :=
          updateFirst s.subcategories (fun c => c._id == p.subcategory_id)
            (pullFromSubcategory pid s.now)
        now := s.now + 1 } := by
    simp only [deleteProduct, hfind]
  have hcfix : cat.product_ids.filter (fun x => x != pid) = cat.product_ids := by
    apply List.filter_eq_self.mpr
    intro x hx
    exact bne_iff_ne.mpr (fun hcontra => hcnotin (hcontra ▸ hx))
  have hsfix : sub.product_ids.filter (fun x => x != pid) = sub.product_ids := by
    apply List.filter_eq_self.mpr
    intro x hx
    exact bne_iff_ne.mpr (fun hcontra => hsnotin (hcontra ▸ hx))
  constructor
  · have hpredc : (fun c => c._id == p.category_id) cat = true := by simp [hcid]
    have huniqc : ∀ y ∈ s.categories,
        (fun c => c._id == p.category_id) y = true → y = cat := by
      intro y hy hpy
      simp only [beq_iff_eq] at hpy
      exact List.inj_on_of_nodup_map hcnodup hy hcat (by rw [hpy, hcid])
    have hmem := mem_updateFirst s.categories _ (pullFromCategory pid s.now)
      cat hcat hpredc huniqc
    refine ⟨pullFromCategory pid s.now cat, by rw [hdel]; exact hmem, rfl, ?_, rfl, ?_⟩
    · exact hcfix
    · have h1 : (pullFromCategory pid s.now cat).product_ids = cat.product_ids := hcfix
      rw [h1]
      have h2 : (pullFromCategory pid s.now cat).product_count
          = cat.product_count - 1 := rfl
      rw [h2, hccnt]
      omega
  · have hpreds : (fun c => c._id == p.subcategory_id) sub = true := by simp [hsid]
    have huniqs : ∀ y ∈ s.subcategories,
        (fun c => c._id == p.subcategory_id) y = true → y = sub := by
      intro y hy hpy
      simp only [beq_iff_eq] at hpy
      exact List.inj_on_of_nodup_map hsnodup hy hsub (by rw [hpy, hsid])
    have hmem := mem_updateFirst s.subcategories _ (pullFromSubcategory pid s.now)
      sub hsub hpreds huniqs
    refine ⟨pullFromSubcategory pid s.now sub, by rw [hdel]; exact hmem, rfl, ?_, rfl, ?_⟩
    · exact hsfix
    · have h1 : (pullFromSubcategory pid s.now sub).product_ids = sub.product_ids := hsfix
      rw [h1]
      have h2 : (pullFromSubcategory pid s.now sub).product_count
          = sub.product_count - 1 := rfl
      rw [h2, hscnt]
      omega

/-- C10 witness: in the drifted state `sBad` (product present, parents
unaware of it) deletion drives `cat_1`'s count to `-1 < 0`. -/
theorem deleteProduct_unconditional_decrement_witness :
    getProductById sBad pid0 = some p0 ∧
    (∃ cat' ∈ (deleteProduct sBad pid0).categories, cat'._id = cat0._id ∧
      cat'.product_ids = cat0.product_ids ∧
      cat'.product_count = cat0.product_count - 1 ∧
      cat'.product_count < (cat'.product_ids.length : Int)) := by
  have h := deleteProduct_unconditional_decrement sBad pid0 p0 (by decide)
    cat0 (by decide) (by decide) (by decide) (by decide) (by decide)
    sub0 (by decide) (by decide) (by decide) (by decide) (by decide)
  exact ⟨by decide, h.1⟩

/-! ## Claim C5 -/

/-- C5: `updateProduct` merges the supplied fields into the stored product
record (`applySet` is the `$set` document, with `updated_at` forced to the
current instant) and leaves every category and subcategory document
unchanged, even when the partial update rewrites `category_id` or
`subcategory_id`. -/
theorem updateProduct_frame (s : DBState) (pid : String) (u : PartialProduct) :
    (updateProduct s pid u).categories = s.categories ∧
    (updateProduct s pid u).subcategories = s.subcategories ∧
    (∀ p, p ∈ s.products → p._id = pid →
      (s.products.map (fun q => q._id)).Nodup →
      applySet u s.now p ∈ (updateProduct s pid u).products ∧
      (applySet u s.now p).updated_at = s.now) := by
  refine ⟨rfl, rfl, ?_⟩
  intro p hp hpid hnodup
  constructor
  · have hpred : (fun q => q._id == pid) p = true := by simp [hpid]
    have huniq : ∀ y ∈ s.products, (fun q => q._id == pid) y = true → y = p := by
      intro y hy hpy
      simp only [beq_iff_eq] at hpy
      exact List.inj_on_of_nodup_map hnodup hy hp (by rw [hpy, hpid])
    exact mem_updateFirst s.products _ (applySet u s.now) p hp hpred huniq
  · rfl

/-- C5 witness: an update rewriting both parent references leaves the
parent collections of `s1` untouched. -/
theorem updateProduct_frame_witness :
    (updateProduct s1 pid0 uC5).categories = s1.categories ∧
    (updateProduct s1 pid0 uC5).subcategories = s1.subcategories ∧
    applySet uC5 s1.now p0 ∈ (updateProduct s1 pid0 uC5).products := by
  have h := updateProduct_frame s1 pid0 uC5
  exact ⟨h.1, h.2.1, (h.2.2 p0 (by decide) (by decide) (by decide)).1⟩

/-! ## Claim C6 -/

/-- C6 counterexample: the claim "update operations may rewrite any field
except the identifier and the creation timestamp" fails on the code — a
partial map supplying `created_at` rewrites the creation timestamp, since
`$set: { ...updateData, updated_at }` applies every supplied field.  In the
concrete state `s1`, updating `prod_0001` with `uC6` changes `created_at`
from 0 to 99. -/
theorem updateProduct_rewrites_created_at_cex :
    getProductById s1 pid0 = some p0 ∧ p0.created_at = 0 ∧
    getProductById (updateProduct s1 pid0 uC6) pid0 =
      some (applySet uC6 s1.now p0) ∧
    (applySet uC6 s1.now p0).created_at = 99 := by decide

/-- C6 (amended): for every existing product and every partial-field map
that supplies neither `product_id` nor `created_at`, those two fields (and
the `_id` document key) are unchanged after the update; other supplied
fields may be rewritten freely. -/
theorem updateProduct_preserves_id_created_at (s : DBState) (pid : String)
    (u : PartialProduct) (p : Product)
    (hp : p ∈ s.products) (hpid : p._id = pid)
    (hnodup : (s.products.map (fun q => q._id)).Nodup)
    (hu1 : u.product_id = none) (hu2 : u.created_at = none) :
    applySet u s.now p ∈ (updateProduct s pid u).products ∧
    (applySet u s.now p).product_id = p.product_id ∧
    (applySet u s.now p).created_at = p.created_at ∧
    (applySet u s.now p)._id = p._id := by
  refine ⟨?_, ?_, ?_, rfl⟩
  · have hpred : (fun q => q._id == pid) p = true := by simp [hpid]
    have huniq : ∀ y ∈ s.products, (fun q => q._id == pid) y = true → y = p := by
      intro y hy hpy
      simp only [beq_iff_eq] at hpy
      exact List.inj_on_of_nodup_map hnodup hy hp (by rw [hpy, hpid])
    exact mem_updateFirst s.products _ (applySet u s.now) p hp hpred huniq
  · simp [applySet, hu1]
  · simp [applySet, hu2]

/-- C6 witness: a plain description update of `prod_0001` keeps
`product_id` and `created_at` intact. -/
theorem updateProduct_preserves_id_created_at_witness :
    applySet uC6ok s1.now p0 ∈ (updateProduct s1 pid0 uC6ok).products ∧
    (applySet uC6ok s1.now p0).product_id = p0.product_id ∧
    (applySet uC6ok s1.now p0).created_at = p0.created_at := by
  have h := updateProduct_preserves_id_created_at s1 pid0 uC6ok p0
    (by decide) (by decide) (by decide) (by decide) (by decide)
  exact ⟨h.1, h.2.1, h.2.2.1⟩

/-! ## Claim C7 -/

/-- C7 counterexample: after an update that changes the images without
supplying `image_count`, the stored `image_count` no longer equals the
length of `image_urls` — `updateProduct` does not recompute the count.  In
the concrete state `s1`, updating `prod_0001` with `uC7` leaves
`image_count = 2` against a single stored URL. -/
theorem update_images_stale_image_count_cex :
    p0.image_count = p0.image_urls.length ∧
    getProductById (updateProduct s1 pid0 uC7) pid0 =
      some (applySet uC7 s1.now p0) ∧
    (applySet uC7 s1.now p0).image_count = 2 ∧
    (applySet uC7 s1.now p0).image_urls.length = 1 := by decide

/-- C7 (amended): `image_count` equals the length of `image_urls`
immediately after creation (it is set to the number of supplied URLs); after
an update it equals the length provided the partial map supplies an
`image_count` matching the length of the supplied `image_urls` — the
service itself never recomputes the count on update. -/
theorem image_count_invariant_amended (s : DBState) (d : ProductFormData)
    (urls : List String) (p : Product) (s' : DBState)
    (hrun : createProduct s d urls = some (p, s'))
    (u : PartialProduct) (l : List String)
    (hurls : u.image_urls = some l) (hcnt : u.image_count = some l.length) :
    p.image_count = p.image_urls.length ∧ p ∈ s'.products ∧
    (∀ q now, (applySet u now q).image_count
      = (applySet u now q).image_urls.length) := by
  cases hg : getNextProductId s with
  | none => simp [createProduct, hg] at hrun
  | some pid =>
    rw [createProduct_state s d urls pid hg] at hrun
    have h1 := Option.some_inj.mp hrun
    rw [Prod.mk.injEq] at h1
    obtain ⟨hp, hs'⟩ := h1
    refine ⟨by rw [← hp]; rfl, ?_, ?_⟩
    · rw [← hs', ← hp]
      exact List.mem_append_right _ (List.mem_singleton.mpr rfl)
    · intro q now
      simp [applySet, hurls, hcnt]

/-- C7 witness: creating `p0` gives `image_count = 2 = |urls0|`, and an
update supplying a matching count keeps the equality. -/
theorem image_count_invariant_amended_witness :
    p0.image_count = p0.image_urls.length ∧
    (applySet uC7ok s1.now p0).image_count
      = (applySet uC7ok s1.now p0).image_urls.length := by
  have h := image_count_invariant_amended s0 d0 urls0 p0 s1 (by decide)
    uC7ok (["x"]) (by decide) (by decide)
  exact ⟨h.1, h.2.2 p0 s1.now⟩

/-! ## Claim C8 -/

/-- C8: `getAllProducts` returns all product records — a permutation of the
`products` collection — ordered newest first, i.e. sorted by `created_at`
descending; being a pure read, it changes no stored document. -/
theorem getAllProducts_sorted_desc (s : DBState) :
    (getAllProducts s).Perm s.products ∧
    List.Pairwise (fun a b => b.created_at ≤ a.created_at) (getAllProducts s) := by
  constructor
  · exact List.mergeSort_perm s.products _
  · simp only [getAllProducts]
    refine List.Pairwise.imp ?_ (List.sorted_mergeSort ?_ ?_ s.products)
    · intro a b hab
      exact of_decide_eq_true hab
    · intro a b c hab hbc
      simp only [decide_eq_true_eq] at *
      omega
    · intro a b
      simp only [Bool.or_eq_true, decide_eq_true_eq]
      omega

/-! ## Claim C9 -/

/-- C9: the formatting step of `getNextProductId` never truncates: for
every numeric suffix above 9999 the produced identifier carries the full
decimal representation after `prod_` (JS `padStart` widens, it never cuts),
and the suffix still parses back to the same number. -/
theorem formatProductId_no_truncation (n : Nat) (h : 9999 < n) :
    (formatProductId ((n : Nat) : Int)).data = "prod_".data ++ natRepr n ∧
    4 < (natRepr n).length ∧
    numericPart (formatProductId ((n : Nat) : Int)) = some ((n : Nat) : Int) := by
  have hlen : 4 < (natRepr n).length := by
    have hb := parseDigits_bound (natRepr n) 0 n (parse_natRepr n)
    have h4 : (10 : Nat) ^ 4 < 10 ^ (natRepr n).length := by
      have h5 : (10 : Nat) ^ 4 ≤ n := by norm_num; omega
      omega
    exact (Nat.pow_lt_pow_iff_right (by norm_num)).mp h4
  refine ⟨?_, hlen, numericPart_formatProductId _ (by omega)⟩
  rw [formatProductId_ofNat]
  show "prod_".data ++ padStart (natRepr n) 4 '0' = "prod_".data ++ natRepr n
  rw [padStart]
  have h0 : 4 - (natRepr n).length = 0 := by omega
  rw [h0]
  simp

/-- C9 witness: the 10000th identifier is `prod_10000`, five digits,
untruncated. -/
theorem formatProductId_no_truncation_witness :
    9999 < 10000 ∧
    (formatProductId ((10000 : Nat) : Int)).data = "prod_".data ++ natRepr 10000 ∧
    formatProductId ((10000 : Nat) : Int) = "prod_10000" := by
  refine ⟨by norm_num, (formatProductId_no_truncation 10000 (by norm_num)).1, by decide⟩
